import Mathlib

/-!
Verification of the document patch engine of `src/lib/preview-context.tsx`.

JavaScript values are embedded as the inductive type `JVal`: `undef` stands for
JS `undefined` (also used for array holes), objects are association lists in
insertion order, arrays are lists whose `undef` entries model `undefined`
cells.  Strings, booleans and integers are embedded directly; the code under
study only performs integer arithmetic on numbers.
-/

inductive JVal where
  | undef
  | bool (b : Bool)
  | num (n : Int)
  | str (s : String)
  | arr (items : List JVal)
  | obj (fields : List (String × JVal))
  deriving Repr

namespace JVal

/-- JS truthiness: `undefined`, `false`, `0` and `""` are falsy; arrays and
objects (even empty ones) are truthy. -/
def jTruthy : JVal → Bool
  | undef => false
  | bool b => b
  | num n => n != 0
  | str s => s != ""
  | arr _ => true
  | obj _ => true

def isArr : JVal → Bool
  | arr _ => true
  | _ => false

def isStr : JVal → Bool
  | str _ => true
  | _ => false

/-- `Object.prototype.toString.call(v) === '[object Object]'`. -/
def isPlainObject : JVal → Bool
  | obj _ => true
  | _ => false

/-- `Array.isArray(v) ? v : []` seen as a Lean list. -/
def jArrOrNil : JVal → List JVal
  | arr xs => xs
  | _ => []

end JVal

open JVal

namespace JVal

mutual

def decEqJ : (a b : JVal) → Decidable (a = b)
  | undef, undef => isTrue rfl
  | bool a, bool b =>
    match decEq a b with
    | isTrue h => isTrue (by rw [h])
    | isFalse h => isFalse (fun he => h (by injection he))
  | num a, num b =>
    match decEq a b with
    | isTrue h => isTrue (by rw [h])
    | isFalse h => isFalse (fun he => h (by injection he))
  | str a, str b =>
    match decEq a b with
    | isTrue h => isTrue (by rw [h])
    | isFalse h => isFalse (fun he => h (by injection he))
  | arr xs, arr ys =>
    match decEqListJ xs ys with
    | isTrue h => isTrue (by rw [h])
    | isFalse h => isFalse (fun he => h (by injection he))
  | obj fs, obj gs =>
    match decEqFieldsJ fs gs with
    | isTrue h => isTrue (by rw [h])
    | isFalse h => isFalse (fun he => h (by injection he))
  | undef, bool _ => isFalse (by intro h; exact JVal.noConfusion h)
  | undef, num _ => isFalse (by intro h; exact JVal.noConfusion h)
  | undef, str _ => isFalse (by intro h; exact JVal.noConfusion h)
  | undef, arr _ => isFalse (by intro h; exact JVal.noConfusion h)
  | undef, obj _ => isFalse (by intro h; exact JVal.noConfusion h)
  | bool _, undef => isFalse (by intro h; exact JVal.noConfusion h)
  | bool _, num _ => isFalse (by intro h; exact JVal.noConfusion h)
  | bool _, str _ => isFalse (by intro h; exact JVal.noConfusion h)
  | bool _, arr _ => isFalse (by intro h; exact JVal.noConfusion h)
  | bool _, obj _ => isFalse (by intro h; exact JVal.noConfusion h)
  | num _, undef => isFalse (by intro h; exact JVal.noConfusion h)
  | num _, bool _ => isFalse (by intro h; exact JVal.noConfusion h)
  | num _, str _ => isFalse (by intro h; exact JVal.noConfusion h)
  | num _, arr _ => isFalse (by intro h; exact JVal.noConfusion h)
  | num _, obj _ => isFalse (by intro h; exact JVal.noConfusion h)
  | str _, undef => isFalse (by intro h; exact JVal.noConfusion h)
  | str _, bool _ => isFalse (by intro h; exact JVal.noConfusion h)
  | str _, num _ => isFalse (by intro h; exact JVal.noConfusion h)
  | str _, arr _ => isFalse (by intro h; exact JVal.noConfusion h)
  | str _, obj _ => isFalse (by intro h; exact JVal.noConfusion h)
  | arr _, undef => isFalse (by intro h; exact JVal.noConfusion h)
  | arr _, bool _ => isFalse (by intro h; exact JVal.noConfusion h)
  | arr _, num _ => isFalse (by intro h; exact JVal.noConfusion h)
  | arr _, str _ => isFalse (by intro h; exact JVal.noConfusion h)
  | arr _, obj _ => isFalse (by intro h; exact JVal.noConfusion h)
  | obj _, undef => isFalse (by intro h; exact JVal.noConfusion h)
  | obj _, bool _ => isFalse (by intro h; exact JVal.noConfusion h)
  | obj _, num _ => isFalse (by intro h; exact JVal.noConfusion h)
  | obj _, str _ => isFalse (by intro h; exact JVal.noConfusion h)
  | obj _, arr _ => isFalse (by intro h; exact JVal.noConfusion h)

def decEqListJ : (xs ys : List JVal) → Decidable (xs = ys)
  | [], [] => isTrue rfl
  | [], _ :: _ => isFalse (by intro h; exact List.noConfusion h)
  | _ :: _, [] => isFalse (by intro h; exact List.noConfusion h)
  | x :: xs, y :: ys =>
    match decEqJ x y with
    | isFalse h => isFalse (fun he => h (by injection he))
    | isTrue h1 =>
      match decEqListJ xs ys with
      | isTrue h2 => isTrue (by rw [h1, h2])
      | isFalse h => isFalse (fun he => h (by injection he))

def decEqFieldsJ : (fs gs : List (String × JVal)) → Decidable (fs = gs)
  | [], [] => isTrue rfl
  | [], _ :: _ => isFalse (by intro h; exact List.noConfusion h)
  | _ :: _, [] => isFalse (by intro h; exact List.noConfusion h)
  | (k, v) :: fs, (l, w) :: gs =>
    match decEq k l with
    | isFalse h => isFalse (fun he => by
        injection he with h1 h2
        exact h (congrArg Prod.fst h1))
    | isTrue hk =>
      match decEqJ v w with
      | isFalse h => isFalse (fun he => by
          injection he with h1 h2
          exact h (congrArg Prod.snd h1))
      | isTrue hv =>
        match decEqFieldsJ fs gs with
        | isTrue h2 => isTrue (by rw [hk, hv, h2])
        | isFalse h => isFalse (fun he => h (by injection he))

end

instance : DecidableEq JVal := decEqJ

end JVal

/-! ### Path tokenisation

`path.split('.')` of JavaScript, written over the character list of the
string so that everything reduces in the kernel.  Like the JS original it
yields `[""]` on the empty string and keeps empty segments. -/

def splitDotAux : List Char → List Char → List String
  | [], acc => [String.mk acc.reverse]
  | c :: rest, acc =>
    if c = '.' then String.mk acc.reverse :: splitDotAux rest []
    else splitDotAux rest (c :: acc)

def splitDot (s : String) : List String := splitDotAux s.data []

/-- `Array.prototype.join('.')` / path reassembly used by the source when it
re-joins split path segments. -/
def joinDot : List String → String
  | [] => ""
  | [t] => t
  | t :: rest => t ++ "." ++ joinDot rest

def digitsVal (cs : List Char) : Nat :=
  cs.foldl (fun acc c => acc * 10 + (c.toNat - '0'.toNat)) 0

/-- The source tests `!isNaN(Number(token))` to decide whether a path segment
is an array index.  On dot-free segments this is exact for digit strings
(including ones with leading zeros, e.g. `Number("01") = 1`) and for
identifier-like segments (`Number` is `NaN` on them).  Exotic numeric formats
(`"1e2"`, `"0x10"`, `" 2"`, `"Infinity"`, …) are outside the path grammar and
are not modelled. -/
def tokNum (s : String) : Option Nat :=
  match s.data with
  | [] => none
  | l => if l.all Char.isDigit then some (digitsVal l) else none

/-- Canonical array-index strings: JS property access `a[k]` on an array hits
element `n` exactly when `k` is the canonical decimal numeral of `n` (so
`a["01"]` is *not* element 1). -/
def canonNat (s : String) : Option Nat :=
  match s.data with
  | [] => none
  | c :: cs =>
    if (c :: cs).all Char.isDigit && (decide (c ≠ '0') || decide (cs = [])) then
      some (digitsVal (c :: cs))
    else none

/-! ### Property access and object construction -/

namespace JVal

/-- First-occurrence association-list update, modelling `{ ...o, [k]: v }` /
`o[k] = v` on JS objects: an existing key keeps its position, a new key is
appended. -/
def objSet : List (String × JVal) → String → JVal → List (String × JVal)
  | [], k, v => [(k, v)]
  | (k', v') :: rest, k, v =>
    if k' = k then (k, v) :: rest else (k', v') :: objSet rest k v

/-- Property read `v[k]` (JS semantics on the shapes this engine produces):
object key lookup, array element access for canonical index strings plus the
`length` property, string character access, `undefined` on everything else. -/
def jGet : JVal → String → JVal
  | obj fs, k => (fs.lookup k).getD undef
  | arr xs, k =>
    (match canonNat k with
     | some n => xs.getD n undef
     | none => if k = "length" then num xs.length else undef)
  | str s, k =>
    (match canonNat k with
     | some n =>
       (match s.data.get? n with
        | some c => str (String.mk [c])
        | none => undef)
     | none => if k = "length" then num s.data.length else undef)
  | _, _ => undef

/-- Own enumerable properties copied by an object spread `{ ...v }`: an
object's fields, an array's (or string's) indexed elements (`length` is not
enumerable), nothing for other primitives. -/
def spreadFields : JVal → List (String × JVal)
  | obj fs => fs
  | arr xs => (List.range xs.length).map (fun i => (toString i, xs.getD i undef))
  | str s => (List.range s.data.length).map
      (fun i => (toString i, match s.data.get? i with
                 | some c => str (String.mk [c])
                 | none => undef))
  | _ => []

/-- `Object.keys(v)`. -/
def jKeys : JVal → List String
  | obj fs => fs.map Prod.fst
  | arr xs => (List.range xs.length).map (fun i => toString i)
  | _ => []

/-- The `in` operator (`k in v`): key membership, which on arrays also counts
`length` and in-range indices. -/
def jHasProp : JVal → String → Bool
  | obj fs, k => (fs.map Prod.fst).contains k
  | arr xs, k =>
    (match canonNat k with
     | some n => decide (n < xs.length)
     | none => k == "length")
  | _, _ => false

/-- `a || b`. -/
def jOr (a b : JVal) : JVal := if a.jTruthy then a else b

/-- `a ?? b` (the model has no `null`, so only `undefined` falls through). -/
def jNn (a b : JVal) : JVal := if a = undef then b else a

/-- String coercion of a template literal (`` `${v}` ``).  Faithful for the
primitive shapes that actually reach it in the engine (section ids are
strings); container coercion is approximated. -/
def jToStr : JVal → String
  | str s => s
  | num n => toString n
  | bool true => "true"
  | bool false => "false"
  | undef => "undefined"
  | arr _ => ""
  | obj _ => "[object Object]"

/-- `{ ...v, [k]: x }`. -/
def jsSpreadSet (v : JVal) (k : String) (x : JVal) : JVal :=
  obj (objSet v.spreadFields k x)

end JVal

/-! ### PathAccessor: `get` and `set` (`preview-context.tsx` lines 12–17 and
61–115) -/

/-- The reduction `path.split('.').reduce((current, key) => current?.[key], obj)`. -/
def getTokens : JVal → List String → JVal
  | v, [] => v
  | v, t :: ts => getTokens (v.jGet t) ts

/-- `get(obj, path)` for a string path; the non-string / falsy-path guard
lives in `jsGet` below. -/
def getPath (root : JVal) (path : String) : JVal :=
  if path = "" then undef else getTokens root (splitDot path)

/-- One level of the array-building loop of `set`: a dense array of length
`max(orig.length, base.length, n+1)` whose cell `n` is `x` and whose other
cells come from `orig` when defined there, else from `base`, else stay
`undefined`. -/
def buildSetArr (orig base : List JVal) (n : Nat) (x : JVal) : List JVal :=
  (List.range (max (max orig.length base.length) (n + 1))).map
    (fun i =>
      if i = n then x
      else if orig.getD i undef ≠ undef then orig.getD i undef
      else base.getD i undef)

/-- The recursive `inner` of `set`, over the split path. -/
def setTokens : JVal → List String → JVal → JVal → JVal
  | current, [], _, _ => current
  | current, [t], v, base =>
    (match tokNum t with
     | some n => arr (buildSetArr current.jArrOrNil base.jArrOrNil n v)
     | none => obj (objSet current.spreadFields t v))
  | current, t :: t2 :: rest, v, base =>
    (match tokNum t with
     | some n =>
       arr (buildSetArr current.jArrOrNil base.jArrOrNil n
         (setTokens (current.jArrOrNil.getD n undef) (t2 :: rest) v
           (base.jArrOrNil.getD n undef)))
     | none =>
       obj (objSet current.spreadFields t
         (setTokens (if current.jTruthy then current.jGet t else undef) (t2 :: rest) v
           (if base.jTruthy then base.jGet t else undef))))

/-- `set(obj, path, value, base)` for a string path. -/
def setPath (root : JVal) (path : String) (v : JVal) (base : JVal) : JVal :=
  if path = "" then root else setTokens root (splitDot path) v base

/-- `get` with its `if (!path || typeof path !== 'string') return undefined`
guard, the path being an arbitrary JS value. -/
def jsGet (root pathArg : JVal) : JVal :=
  match pathArg with
  | str s => getPath root s
  | _ => undef

/-- `set` with its `if (!path || typeof path !== 'string') return obj`
guard. -/
def jsSet (root pathArg v base : JVal) : JVal :=
  match pathArg with
  | str s => setPath root s v base
  | _ => root

/-! ### Nesting depth, used to pre-compute recursion bounds

`deepMerge` and `flattenLocalizedForLocale` recurse along the nesting
structure of two (resp. one) values.  They are written with an explicit fuel
argument that is structurally consumed once per nesting level, so that they
reduce in the kernel; the public wrappers pass `depth … + 1`, which bounds the
recursion depth, so the `fuel = 0` fallback is never reached. -/

mutual

def depth : JVal → Nat
  | .arr xs => 1 + depthList xs
  | .obj fs => 1 + depthFields fs
  | _ => 0

def depthList : List JVal → Nat
  | [] => 0
  | x :: xs => max (depth x) (depthList xs)

def depthFields : List (String × JVal) → Nat
  | [] => 0
  | (_, v) :: fs => max (depth v) (depthFields fs)

end

/-! ### `deepMerge` (`preview-context.tsx` lines 397–450) -/

/-- The hole/`undefined` scan `isSparse` of `deepMerge`: in the model a hole
and an `undefined` entry are both `undef`. -/
def isSparse (xs : List JVal) : Bool := xs.contains undef

/-- `deepMerge(target, source)`, fueled (see above), structurally recursive on
the fuel so that it reduces in the kernel.  Branches, in source order: array
handling (a dense source replaces the target, a sparse source overlays it
index-wise up to `max` of the lengths), non-plain-object fallthrough to
`source`, and the `Object.keys(source).forEach` merge starting from
`{ ...target }`. -/
def deepMergeF : Nat → JVal → JVal → JVal
  | 0, _, s => s
  | Nat.succ k, t, s =>
    if t.isArr || s.isArr then
      match t, s with
      | arr ts, arr ss =>
        if !isSparse ss then arr ss
        else
          arr ((List.range (max ts.length ss.length)).map (fun i =>
            let tv := ts.getD i undef
            let sv := ss.getD i undef
            if sv = undef then tv
            else if tv = undef then sv
            else deepMergeF k tv sv))
      | _, arr ss => arr ss
      | _, _ => s
    else if !t.isPlainObject || !s.isPlainObject then s
    else
      match t, s with
      | obj tf, obj sf =>
        obj (sf.foldl (fun acc p =>
          let tv := (obj tf).jGet p.1
          let m :=
            if p.2.isArr || tv.isArr then
              deepMergeF k (arr tv.jArrOrNil) (arr p.2.jArrOrNil)
            else if tv.isPlainObject && p.2.isPlainObject then deepMergeF k tv p.2
            else p.2
          objSet acc p.1 m) tf)
      | _, _ => s

/-- `deepMerge(target, source)`.  One fuel unit is consumed per nesting level
and every recursive call strictly descends into `target`/`source`, so
`depth t + depth s + 1` fuel always suffices. -/
def deepMerge (t s : JVal) : JVal := deepMergeF (depth t + depth s + 1) t s

/-! ### LocaleResolver: `getLocalizedValue` (lines 27–58) -/

structure LocalizedValue where
  value : JVal
  isTranslated : Bool
  isFallback : Bool
  availableLocales : List String
  deriving Repr, DecidableEq

/-- `getLocalizedValue(rawValue, locale)`. -/
def getLocalizedValue (rawValue : JVal) (locale : String) : LocalizedValue :=
  match rawValue with
  | str s =>
    { value := str s
      isTranslated := locale == "en"
      isFallback := locale != "en"
      availableLocales := ["en"] }
  | arr xs =>
    { value := jOr ((arr xs).jGet locale) (jOr ((arr xs).jGet "en") (str ""))
      isTranslated := (arr xs).jHasProp locale
      isFallback := !(arr xs).jHasProp locale && (arr xs).jHasProp "en"
      availableLocales := (arr xs).jKeys }
  | obj fs =>
    { value := jOr ((obj fs).jGet locale) (jOr ((obj fs).jGet "en") (str ""))
      isTranslated := (obj fs).jHasProp locale
      isFallback := !(obj fs).jHasProp locale && (obj fs).jHasProp "en"
      availableLocales := (obj fs).jKeys }
  | _ =>
    { value := str ""
      isTranslated := false
      isFallback := false
      availableLocales := [] }

/-! ### Publish flattening: `flattenLocalizedForLocale` (lines 1245–1260) -/

/-- The duck-typing test of `flattenLocalizedForLocale`: a nonempty object all
of whose values are strings, having an `en` or active-locale key. -/
def isLocaleMapB (fs : List (String × JVal)) (locale : String) : Bool :=
  !fs.isEmpty && fs.all (fun p => p.2.isStr) &&
    (!((obj fs).jGet "en" == undef) || !((obj fs).jGet locale == undef))

/-- `flattenLocalizedForLocale(data, locale)`, fueled (fuel bounds nesting
depth; the wrapper below always passes enough), structurally recursive on the
fuel. -/
def flattenF : Nat → JVal → String → JVal
  | 0, v, _ => v
  | Nat.succ k, arr xs, locale => arr (xs.map (fun x => flattenF k x locale))
  | Nat.succ k, obj fs, locale =>
    if isLocaleMapB fs locale then
      jNn ((obj fs).jGet locale) (jNn ((obj fs).jGet "en") (str ""))
    else obj (fs.map (fun p => (p.1, flattenF k p.2 locale)))
  | Nat.succ _, v, _ => v

/-- `flattenLocalizedForLocale(data, locale)`. -/
def flattenLocalized (data : JVal) (locale : String) : JVal :=
  flattenF (depth data + 1) data locale

/-! ### The edit session (`PreviewProvider`, lines 452–1006)

The provider props that stay fixed for a session are gathered in `Session`;
the two pieces of React state (`editedData` and `sections`) form `PState`.
Each UI event handler reads the committed state and queues functional
updates, so an operation is modelled as `Session → PState → … → PState`; the
`localStorage` autosave side channel is not modelled.  The `sections` state is
kept as a list of JS section objects (`JVal`), exactly what
`initialData.pages[pageType].sections` holds. -/

structure Session where
  initialData : JVal
  schema : JVal
  pageType : Option String
  contextSlug : Option String
  currentLocale : String
  deriving Repr

structure PState where
  editedData : JVal
  sections : List JVal
  deriving Repr, DecidableEq

/-- `getContextProperty()` (lines 458–465). -/
def contextPropertyOf (sess : Session) : Option String :=
  match sess.pageType with
  | some "service-detail" => some "serviceSlug"
  | some "product-detail" => some "productSlug"
  | some "category-detail" => some "categorySlug"
  | _ => none

/-- `contextSlug && contextProperty`, the guard used by `addSection` and
`getAvailableSections`. -/
def ctxOf (sess : Session) : Option (String × String) :=
  match sess.contextSlug, contextPropertyOf sess with
  | some cs, some cp => if cs ≠ "" then some (cp, cs) else none
  | _, _ => none

/-- `getInitialSections()` (lines 470–477): the page's section list from
`initialData.pages?.[pageType]?.sections` when present, else the root-level
`initialData.sections || []`. -/
def getInitialSections (sess : Session) : List JVal :=
  let rootSections :=
    let v := sess.initialData.jGet "sections"
    if v.jTruthy then v.jArrOrNil else []
  match sess.pageType with
  | some pt =>
    if pt ≠ "" then
      let v := ((sess.initialData.jGet "pages").jGet pt).jGet "sections"
      if v.jTruthy then v.jArrOrNil else rootSections
    else rootSections
  | none => rootSections

/-- The state a session starts in: empty overlay, sections seeded by
`getInitialSections`. -/
def initialState (sess : Session) : PState :=
  { editedData := obj [], sections := getInitialSections sess }

/-- The `sectionsPath` computed in `addSection` / `removeSection` /
`moveSection`: `pages.<pageType>.sections` for a non-home page type, else the
legacy root `sections`. -/
def sectionsPathOf (sess : Session) : String :=
  match sess.pageType with
  | some pt => if pt ≠ "" && pt ≠ "home" then "pages." ++ pt ++ ".sections" else "sections"
  | none => "sections"

/-- The body of `getSections` (lines 681–699) without the region filter:
each section's `data` is overlaid with the overlay subtree at
`sections.<id>` via `deepMerge`, when that subtree is truthy. -/
def mergeSections (secs : List JVal) (edited : JVal) : List JVal :=
  secs.map (fun s =>
    let sectionEdits := getPath edited ("sections." ++ jToStr (s.jGet "id"))
    if sectionEdits.jTruthy then
      jsSpreadSet s "data" (deepMerge (s.jGet "data") sectionEdits)
    else s)

/-- `getSections(region?)`. -/
def getSections (_sess : Session) (st : PState) (region : Option String) : List JVal :=
  let filtered :=
    match region with
    | some r => st.sections.filter (fun s => s.jGet "region" == str r)
    | none => st.sections
  mergeSections filtered st.editedData

/-- The schema-walking loop of `getFieldSchema` (lines 630–648): `!node`
returns `null`; an array-typed node consumes a numeric segment by moving to
its `itemSchema` (default `{ editable: true }`). -/
def walkSchema : JVal → List String → JVal
  | node, [] => node
  | node, t :: ts =>
    if !node.jTruthy then undef
    else if node.jGet "type" == str "array" && (tokNum t).isSome then
      walkSchema (jOr (node.jGet "itemSchema") (obj [("editable", bool true)])) ts
    else walkSchema (node.jGet t) ts

/-- `getFieldSchema(path)` (lines 604–654).  A `sections.<id>.<rest>` path is
resolved through the live (merged) section list to the section type's schema
in `schema.sectionTypes`; any other path resolves directly against `schema`.
JS `null` is rendered as `undef`. -/
def getFieldSchema (sess : Session) (st : PState) (path : String) : JVal :=
  if !sess.schema.jTruthy then undef
  else
    match splitDot path with
    | "sections" :: sectionId :: fieldToks =>
      (match (mergeSections st.sections st.editedData).find?
          (fun s => s.jGet "id" == str sectionId) with
       | none => undef
       | some sec =>
         let sectionType := sec.jGet "type"
         if !sectionType.jTruthy then undef
         else
           let base := ((sess.schema.jGet "sectionTypes").jGet (jToStr sectionType)).jGet "schema"
           if !base.jTruthy then undef
           else
             let node := walkSchema base fieldToks
             if node.jTruthy then node else undef)
    | _ =>
      let fieldSchema := getPath sess.schema path
      if fieldSchema.jTruthy then fieldSchema else undef

/-! ### Default-data derivation (lines 200–266) -/

/-- Character-list prefix test, used to model `String.prototype.includes`. -/
def charsStart : List Char → List Char → Bool
  | [], _ => true
  | _ :: _, [] => false
  | a :: as, b :: bs => a == b && charsStart as bs

def charsHasSub (sub : List Char) : List Char → Bool
  | [] => charsStart sub []
  | c :: rest => charsStart sub (c :: rest) || charsHasSub sub rest

/-- `s.includes(sub)`. -/
def strIncludes (s sub : String) : Bool := charsHasSub sub.data s.data

/-- `s.toLowerCase()` (ASCII, which covers the key names involved). -/
def strLower (s : String) : String := String.mk (s.data.map Char.toLower)

/-- `deriveDefaultFromFieldSchema(fieldSchema, fieldKey)`: type- and key-name
heuristics for placeholder values. -/
def deriveDefaultFromFieldSchema (fieldSchema : JVal) (fieldKey : String) : JVal :=
  match fieldSchema with
  | obj fs =>
    let key := strLower fieldKey
    let has := fun (sub : String) => strIncludes key sub
    match (obj fs).jGet "type" with
    | str "string" =>
      if has "name" then str "Placeholder Name"
      else if has "title" then str "Placeholder Title"
      else if has "subtitle" then str "Placeholder Subtitle"
      else if has "description" || has "excerpt" then str "Placeholder description..."
      else if has "price" then str "$$"
      else if has "email" then str "email@example.com"
      else if has "phone" then str "(555) 000-0000"
      else if has "address" then str "123 Main St"
      else if has "date" then str "2024-01-01"
      else if has "company" then str "Company"
      else if has "slug" then str "placeholder-slug"
      else if has "message" then str "Placeholder message"
      else if has "label" then str "Click me"
      else if key == "href" then str "#"
      else str ""
    | str "number" => num 0
    | str "boolean" => bool false
    | str "image" => str ""
    | str "array" => arr []
    | _ => str ""
  | _ => str ""

/-- `deriveDefaultItemFromItemSchema(itemSchema)`: an object-shaped item
schema (no `type` key) is derived field by field, a primitive item schema
directly. -/
def deriveDefaultItemFromItemSchema (itemSchema : JVal) : JVal :=
  if !itemSchema.jTruthy then str ""
  else
    match itemSchema with
    | obj fs =>
      if !(fs.map Prod.fst).contains "type" then
        obj (fs.map (fun p => (p.1, deriveDefaultFromFieldSchema p.2 p.1)))
      else deriveDefaultFromFieldSchema (obj fs) ""
    | v => deriveDefaultFromFieldSchema v ""

/-- `deriveDefaultDataFromSectionSchema(sectionSchema)` (lines 247–266). -/
def deriveDefaultDataFromSectionSchema (sectionSchema : JVal) : JVal :=
  match sectionSchema with
  | obj fs =>
    obj (fs.map (fun p =>
      let fieldSchema := p.2
      if fieldSchema.jGet "type" == str "array" then
        if (fieldSchema.jGet "itemSchema").jTruthy then
          (p.1, arr [deriveDefaultItemFromItemSchema (fieldSchema.jGet "itemSchema")])
        else (p.1, arr [])
      else
        match fieldSchema with
        | obj gs =>
          if !(gs.map Prod.fst).contains "type" then
            (p.1, obj (gs.map (fun q => (q.1, deriveDefaultFromFieldSchema q.2 q.1))))
          else (p.1, deriveDefaultFromFieldSchema (obj gs) p.1)
        | v => (p.1, deriveDefaultFromFieldSchema v p.1)))
  | _ => obj []

/-! ### Array-schema resolution (lines 268–342) -/

/-- `resolveArraySchema(arrayPath, schema)`: walks the section type's schema
field by field (no array/index handling), reading the section type from the
raw `sections` state (`getSectionsFromState`). -/
def resolveArraySchema (sess : Session) (st : PState) (arrayPath : String) : JVal :=
  match splitDot arrayPath with
  | "sections" :: sectionId :: fieldPath =>
    (match st.sections.find? (fun s => s.jGet "id" == str sectionId) with
     | none => undef
     | some sec =>
       let sectionType := sec.jGet "type"
       if !sectionType.jTruthy then undef
       else
         let start := ((sess.schema.jGet "sectionTypes").jGet (jToStr sectionType)).jGet "schema"
         fieldPath.foldl (fun node t => if !node.jTruthy then undef else node.jGet t) start)
  | _ => undef

/-- `resolveArrayItemSchema(arrayPath, schema)` (lines 294–327): like
`resolveArraySchema` but consuming numeric segments through `itemSchema`, and
unwrapping a final array node to its `itemSchema` (default generic editable
string). -/
def resolveArrayItemSchema (sess : Session) (st : PState) (arrayPath : String) : JVal :=
  match splitDot arrayPath with
  | "sections" :: sectionId :: fieldPath =>
    (match st.sections.find? (fun s => s.jGet "id" == str sectionId) with
     | none => undef
     | some sec =>
       let sectionType := sec.jGet "type"
       if !sectionType.jTruthy then undef
       else
         let start := ((sess.schema.jGet "sectionTypes").jGet (jToStr sectionType)).jGet "schema"
         let node := fieldPath.foldl (fun node t =>
           if !node.jTruthy then undef
           else if node.jGet "type" == str "array" && (tokNum t).isSome then
             jOr (node.jGet "itemSchema") (obj [("type", str "string"), ("editable", bool true)])
           else node.jGet t) start
         if node.jGet "type" == str "array" then
           jOr (node.jGet "itemSchema") (obj [("type", str "string"), ("editable", bool true)])
         else node)
  | _ => undef

/-- `getArrayFromLiveState(arrayPath, getSectionsFn)` (lines 329–342): looks
the section up in the supplied live list and reads the inner path from its
`data`; anything that is not an array comes back as `[]`. -/
def getArrayFromLiveState (arrayPath : String) (liveSections : List JVal) : List JVal :=
  match splitDot arrayPath with
  | "sections" :: sectionId :: innerToks =>
    (match liveSections.find? (fun s => s.jGet "id" == str sectionId) with
     | none => []
     | some sec => (getPath (sec.jGet "data") (joinDot innerToks)).jArrOrNil)
  | _ => []

/-! ### OverlayStore write: `updateField` (lines 488–601) -/

/-- Does the split path match `^sections\.[^.]+\.[^.]+\.0($|\.)`? -/
def isFirstItemEditToks : List String → Bool
  | "sections" :: a :: b :: "0" :: _ => a != "" && b != ""
  | _ => false

/-- The new `editedData` produced by one `updateField(path, value)` call
against the committed state `st` (the `setEditedData(prev => …)` body).  A
localized field first wraps the value through the current locale map; an edit
touching index 0 of a section array reconstructs the whole array, preserving
the other items from the live state (lines 510–590); everything else is a
plain `set` against the overlay with `initialData` as gap-filling base. -/
def updateFieldEdited (sess : Session) (st : PState) (path : String) (value : JVal) : JVal :=
  let fieldSchema := getFieldSchema sess st path
  let prev := st.editedData
  let processedValue :=
    if (fieldSchema.jGet "localized").jTruthy then
      let currentValue := jOr (getPath prev path) (jOr (getPath sess.initialData path) (obj []))
      let localizedFields :=
        match currentValue with
        | str s => [("en", str s)]
        | v => v.spreadFields
      obj (objSet localizedFields sess.currentLocale value)
    else value
  let pathParts := splitDot path
  if isFirstItemEditToks pathParts then
    let arrayPath := joinDot pathParts.dropLast
    let isDirectFirstItem := pathParts.getLast? == some "0"
    let actualArrayPath :=
      if isDirectFirstItem then arrayPath else joinDot pathParts.dropLast.dropLast
    let currentArray := getArrayFromLiveState actualArrayPath (mergeSections st.sections prev)
    let otherItems := currentArray.drop 1
    let newData := setPath prev path processedValue sess.initialData
    if otherItems.length > 0 then
      let originalFirstItem := currentArray.getD 0 undef
      let fieldPathInItem := joinDot (pathParts.drop 4)
      let updatedFirstItem :=
        if fieldPathInItem ≠ "" then
          if strIncludes fieldPathInItem "." then
            deepMerge originalFirstItem (setPath (obj []) fieldPathInItem value originalFirstItem)
          else jsSpreadSet originalFirstItem fieldPathInItem processedValue
        else processedValue
      setPath newData actualArrayPath (arr (updatedFirstItem :: otherItems)) sess.initialData
    else setPath prev path processedValue sess.initialData
  else setPath prev path processedValue sess.initialData

/-- `updateField` as a state transition (it only queues an `editedData`
update). -/
def updateField (sess : Session) (st : PState) (path : String) (value : JVal) : PState :=
  { st with editedData := updateFieldEdited sess st path value }

/-! ### SectionRegistry operations (lines 732–818) -/

/-- `newSections.map((section, index) => ({ ...section, order: (index+1)*10 }))`. -/
def renumberFrom : Nat → List JVal → List JVal
  | _, [] => []
  | i, s :: rest => jsSpreadSet s "order" (num ((Int.ofNat i + 1) * 10)) :: renumberFrom (i + 1) rest

/-- `arr.splice(pos, 0, x)` on a copy: JS clamps `pos` into `[0, length]`,
which `take`/`drop` give for free. -/
def spliceInsert (l : List JVal) (pos : Nat) (x : JVal) : List JVal :=
  l.take pos ++ x :: l.drop pos

/-- `arr.splice(i, 1)` on a copy. -/
def spliceRemove (l : List JVal) (i : Nat) : List JVal :=
  l.take i ++ l.drop (i + 1)

/-- The section object built by `addSection` (lines 737–756): default data
from the registry (or derived from the schema), id `type` for singletons and
`type + "-" + Date.now()` otherwise, a context-slug prefix and stamped
context property on context-scoped sub-pages, and order `position*10` or
`(count+1)*10`. -/
def newSectionFor (sess : Session) (st : PState) (sectionType region : String)
    (position : Option Nat) (now : Int) : JVal :=
  let meta := (sess.schema.jGet "sectionTypes").jGet sectionType
  let defaultData := jOr (meta.jGet "defaultData")
    (deriveDefaultDataFromSectionSchema (meta.jGet "schema"))
  let baseId := if (meta.jGet "singleton").jTruthy then sectionType
    else sectionType ++ "-" ++ toString now
  let newId :=
    match ctxOf sess with
    | some (_, cs) => cs ++ "-" ++ baseId
    | none => baseId
  let core : List (String × JVal) :=
    [("id", str newId), ("type", str sectionType), ("enabled", bool true),
     ("region", str region),
     ("order", num (match position with
       | some p => Int.ofNat p * 10
       | none => (Int.ofNat st.sections.length + 1) * 10)),
     ("data", defaultData)]
  match ctxOf sess with
  | some (cp, cs) => obj (core ++ [(cp, str cs)])
  | none => obj core

/-- `addSection(sectionType, region, position?)` (lines 732–774).  Unknown
types are a silent no-op.  The structural insert renumbers all orders when a
position is given and appends otherwise.  The closing
`updateField(sectionsPath, getSections())` runs against the *committed*
state (React functional updates are only applied afterwards), so the overlay
receives the pre-add merged section list — modelled by calling
`updateFieldEdited` on `st`. -/
def addSection (sess : Session) (st : PState) (sectionType : String) (region : String)
    (position : Option Nat) (now : Int) : PState :=
  let meta := (sess.schema.jGet "sectionTypes").jGet sectionType
  if !meta.jTruthy then st
  else
    let newSection := newSectionFor sess st sectionType region position now
    let newSections :=
      match position with
      | some p => renumberFrom 0 (spliceInsert st.sections p newSection)
      | none => st.sections ++ [newSection]
    let staleLive := arr (getSections sess st none)
    { editedData := updateFieldEdited sess st (sectionsPathOf sess) staleLive
      sections := newSections }

/-- `removeSection(sectionId)` (lines 776–790): filters the registry by id and
writes the computed next list into the overlay at the page's sections path. -/
def removeSection (sess : Session) (st : PState) (sectionId : String) : PState :=
  let nextSections := st.sections.filter (fun s => !(s.jGet "id" == str sectionId))
  { editedData := setPath st.editedData (sectionsPathOf sess) (arr nextSections) sess.initialData
    sections := nextSections }

/-- `moveSection(sectionId, newPosition)` (lines 792–818): no-op when the id
is unknown or the position is unchanged, else splice out, splice back in,
renumber every order to `(index+1)*10`, and write the list to the overlay. -/
def moveSection (sess : Session) (st : PState) (sectionId : String) (newPosition : Nat) : PState :=
  match st.sections.findIdx? (fun s => s.jGet "id" == str sectionId) with
  | none => st
  | some currentIndex =>
    if newPosition = currentIndex then st
    else
      let moved := st.sections.getD currentIndex undef
      let reordered := renumberFrom 0
        (spliceInsert (spliceRemove st.sections currentIndex) newPosition moved)
      { editedData := setPath st.editedData (sectionsPathOf sess) (arr reordered) sess.initialData
        sections := reordered }

/-- `discardChanges()` (lines 943–949): clears the overlay and resets the
sections state to `initialData.sections || []` (note: *not*
`getInitialSections()`). -/
def discardChanges (sess : Session) (st : PState) : PState :=
  let _ := st
  let v := sess.initialData.jGet "sections"
  { editedData := obj [], sections := if v.jTruthy then v.jArrOrNil else [] }

/-! ### ArrayEditor (lines 820–858) -/

/-- The `maxItems` read `arraySchema?.maxItems as number` followed by
`typeof maxItems === 'number'`. -/
def maxItemsAt (sess : Session) (st : PState) (arrayPath : String) : Option Int :=
  match (resolveArraySchema sess st arrayPath).jGet "maxItems" with
  | num n => some n
  | _ => none

/-- The live (merged) array `getArrayFromLiveState(arrayPath, getSections)`
that `addArrayItem` / `canAddArrayItem` inspect. -/
def liveArrayAt (sess : Session) (st : PState) (arrayPath : String) : List JVal :=
  getArrayFromLiveState arrayPath (getSections sess st none)

/-- `addArrayItem(arrayPath)` (lines 821–832): no-op when a numeric
`maxItems` cap is reached; otherwise derives a schema-correct item, appends
it and writes the whole array back through `updateField`. -/
def addArrayItem (sess : Session) (st : PState) (arrayPath : String) : PState :=
  let current := liveArrayAt sess st arrayPath
  let arraySchema := resolveArraySchema sess st arrayPath
  match maxItemsAt sess st arrayPath with
  | some n =>
    if Int.ofNat current.length ≥ n then st
    else
      let itemSchema := jOr (arraySchema.jGet "itemSchema") (resolveArrayItemSchema sess st arrayPath)
      let newItem := deriveDefaultItemFromItemSchema itemSchema
      updateField sess st arrayPath (arr (current ++ [newItem]))
  | none =>
    let itemSchema := jOr (arraySchema.jGet "itemSchema") (resolveArrayItemSchema sess st arrayPath)
    let newItem := deriveDefaultItemFromItemSchema itemSchema
    updateField sess st arrayPath (arr (current ++ [newItem]))

/-- `canAddArrayItem(arrayPath)` (lines 834–842). -/
def canAddArrayItem (sess : Session) (st : PState) (arrayPath : String) : Bool :=
  match maxItemsAt sess st arrayPath with
  | some n => Int.ofNat (liveArrayAt sess st arrayPath).length < n
  | none => true

/-! ### `getAvailableSections` (lines 860–888) -/

structure AvailEntry where
  displayName : JVal
  description : JVal
  isAdded : Bool
  canAdd : Bool
  deriving Repr, DecidableEq

/-- The sections considered by the availability check: on a context-scoped
sub-page only those stamped with the current context slug. -/
def relevantSectionsOf (sess : Session) (st : PState) : List JVal :=
  match ctxOf sess with
  | some (cp, cs) => st.sections.filter (fun s => s.jGet cp == str cs)
  | none => st.sections

/-- The optional page-scoped allowlist
`schema?.pages?.[pageType]?.allowedSectionTypes`. -/
def allowedListOf (sess : Session) : JVal :=
  match sess.pageType with
  | some pt => if pt ≠ "" then ((sess.schema.jGet "pages").jGet pt).jGet "allowedSectionTypes" else undef
  | none => undef

/-- Is `typeKey` filtered out by `Array.isArray(allowed) && !allowed.includes(typeKey)`? -/
def allowExcludes (sess : Session) (typeKey : String) : Bool :=
  match allowedListOf sess with
  | arr xs => !xs.contains (str typeKey)
  | _ => false

/-- The status entry built per registry type. -/
def mkAvailEntry (sess : Session) (st : PState) (typeKey : String) (meta : JVal) : AvailEntry :=
  let isAdded := ((relevantSectionsOf sess st).map (fun s => s.jGet "type")).contains (str typeKey)
  { displayName := meta.jGet "displayName"
    description := meta.jGet "description"
    isAdded := isAdded
    canAdd := if (meta.jGet "singleton").jTruthy then !isAdded else true }

/-- `getAvailableSections()` as an association list in registry order,
skipping types outside the page allowlist. -/
def getAvailableSections (sess : Session) (st : PState) : List (String × AvailEntry) :=
  let registryFields :=
    match sess.schema.jGet "sectionTypes" with
    | obj fs => fs
    | _ => []
  registryFields.filterMap (fun p =>
    if allowExcludes sess p.1 then none
    else some (p.1, mkAvailEntry sess st p.1 p.2))

/-! ### PublishPayloadBuilder: `buildPublishPayload` (lines 1213–1242) -/

/-- `delete payload.sections` guarded by `'sections' in payload`. -/
def objDelete (v : JVal) (k : String) : JVal :=
  match v with
  | obj fs => obj (fs.filter (fun p => !(p.1 == k)))
  | _ => v

/-- `buildPublishPayload(opts)`: deep-merge `initialData` over
`baseSiteData`, splice the flattened live sections in at
`pages.<pageType>.sections` (the merge result itself serving as the `set`
base), and drop any legacy root-level `sections`. -/
def buildPublishPayload (baseSiteData initialData : JVal) (pageType currentLocale : String)
    (liveSections : List JVal) : JVal :=
  let payload := deepMerge baseSiteData initialData
  let flattened := liveSections.map (fun sec =>
    jsSpreadSet sec "data" (flattenLocalized (sec.jGet "data") currentLocale))
  let payload2 := setPath payload ("pages." ++ pageType ++ ".sections") (arr flattened) payload
  objDelete payload2 "sections"

/-- The `publishChanges` call site (lines 896–903) fixes the arguments:
the module-level base site data, the session's `initialData`,
`pageType || 'home'`, the active locale and the merged live sections. -/
def publishPayloadOf (baseSiteData : JVal) (sess : Session) (st : PState) : JVal :=
  buildPublishPayload baseSiteData sess.initialData
    (match sess.pageType with
     | some pt => if pt ≠ "" then pt else "home"
     | none => "home")
    sess.currentLocale (getSections sess st none)

/-! ### Helper lemmas -/

theorem lookup_objSet (fs : List (String × JVal)) (k : String) (v : JVal) :
    (objSet fs k v).lookup k = some v := by
  induction fs with
  | nil => simp [objSet, List.lookup]
  | cons p rest ih =>
    obtain ⟨k', v'⟩ := p
    by_cases h : k' = k
    · simp [objSet, h, List.lookup]
    · simp [objSet, h, List.lookup,
        show (k == k') = false from beq_eq_false_iff_ne.mpr (Ne.symm h), ih]

theorem lookup_objSet_ne (fs : List (String × JVal)) (k : String) (v : JVal) (k' : String)
    (h : k' ≠ k) : (objSet fs k v).lookup k' = fs.lookup k' := by
  induction fs with
  | nil => simp [objSet, List.lookup, show (k' == k) = false from beq_eq_false_iff_ne.mpr h]
  | cons p rest ih =>
    obtain ⟨a, b⟩ := p
    by_cases ha : a = k
    · subst ha
      simp [objSet, List.lookup, show (k' == a) = false from beq_eq_false_iff_ne.mpr h]
    · by_cases hb : k' = a
      · subst hb
        simp [objSet, ha, List.lookup]
      · simp [objSet, ha, List.lookup,
          show (k' == a) = false from beq_eq_false_iff_ne.mpr hb, ih]

theorem jGet_objSet (fs : List (String × JVal)) (k : String) (v : JVal) :
    (obj (objSet fs k v)).jGet k = v := by
  simp [jGet, lookup_objSet]

theorem jGet_objSet_ne (fs : List (String × JVal)) (k : String) (v : JVal) (k' : String)
    (h : k' ≠ k) : (obj (objSet fs k v)).jGet k' = (obj fs).jGet k' := by
  simp [jGet, lookup_objSet_ne _ _ _ _ h]

theorem getTokens_undef (ts : List String) : getTokens undef ts = undef := by
  induction ts with
  | nil => rfl
  | cons t rest ih => simpa [getTokens, jGet] using ih

theorem getD_range_map {α : Type} (f : Nat → α) (m n : Nat) (d : α) (h : n < m) :
    ((List.range m).map f).getD n d = f n := by
  simp [List.getD, List.getElem?_map, List.getElem?_range, h]

theorem buildSetArr_getD_self (orig base : List JVal) (n : Nat) (x : JVal) :
    (buildSetArr orig base n x).getD n undef = x := by
  have h : n < max (max orig.length base.length) (n + 1) := by omega
  simp [buildSetArr, getD_range_map _ _ _ _ h]

/-! ### The path grammar -/

/-- Loose identifier segments of the path grammar: a letter (an alphanumeric
that is not a digit), `_` or `$` first, then alphanumerics, `_`, `$` or `-`
(section ids such as `physio-hero` contain dashes).  `"Infinity"` is excluded
because `Number("Infinity")` is not `NaN`, so the source would not treat that
segment as an object key. -/
def isIdentSeg (t : String) : Bool :=
  match t.data with
  | [] => false
  | c :: cs =>
    ((c.isAlphanum && !c.isDigit) || c == '_' || c == '$') &&
      cs.all (fun d => d.isAlphanum || d == '_' || d == '$' || d == '-') &&
      t != "Infinity"

/-- A valid path segment: an identifier or a canonical non-negative decimal
numeral. -/
def ValidSeg (t : String) : Prop := isIdentSeg t = true ∨ (canonNat t).isSome

instance (t : String) : Decidable (ValidSeg t) := by
  unfold ValidSeg
  infer_instance

theorem tokNum_none_of_ident (t : String) (h : isIdentSeg t = true) : tokNum t = none := by
  unfold isIdentSeg at h
  unfold tokNum
  cases hd : t.data with
  | nil => rfl
  | cons c cs =>
    rw [hd] at h
    dsimp only at h ⊢
    simp only [Bool.and_eq_true] at h
    have hc : c.isDigit = false := by
      rcases Bool.or_eq_true_iff.mp h.1.1 with h1 | h2
      · rcases Bool.or_eq_true_iff.mp h1 with ha | hu
        · simp only [Bool.and_eq_true] at ha
          simpa using ha.2
        · rw [eq_of_beq hu]; decide
      · rw [eq_of_beq h2]; decide
    simp [List.all_cons, hc]

theorem tokNum_of_canonNat (t : String) (n : Nat) (h : canonNat t = some n) :
    tokNum t = some n := by
  unfold canonNat at h
  unfold tokNum
  cases hd : t.data with
  | nil => rw [hd] at h; exact absurd h (by simp)
  | cons c cs =>
    rw [hd] at h
    dsimp only at h ⊢
    by_cases hall : ((c :: cs).all Char.isDigit && (decide (c ≠ '0') || decide (cs = []))) = true
    · rw [if_pos hall] at h
      simp only [Bool.and_eq_true] at hall
      simp [hall.1, ← Option.some_inj.mp h]
    · rw [if_neg hall] at h
      exact absurd h (by simp)

/-- Write-then-read round trip at the token level: after
`setTokens root ts v base`, reading the same (valid, nonempty) token list
gives back exactly `v`. -/
theorem roundtrip_tokens (ts : List String) :
    ∀ (root base v : JVal), (∀ t ∈ ts, ValidSeg t) → ts ≠ [] →
    getTokens (setTokens root ts v base) ts = v := by
  induction ts with
  | nil => intro root base v _ h; exact absurd rfl h
  | cons t rest ih =>
    intro root base v hv _
    cases rest with
    | nil =>
      rcases hv t (by simp) with hid | hnum
      · have h1 : tokNum t = none := tokNum_none_of_ident t hid
        simp [setTokens, getTokens, h1, jGet_objSet]
      · obtain ⟨n, hn⟩ := Option.isSome_iff_exists.mp hnum
        have h1 : tokNum t = some n := tokNum_of_canonNat t n hn
        have hb := buildSetArr_getD_self root.jArrOrNil base.jArrOrNil n v
        simp only [List.getD, List.get?_eq_getElem?] at hb
        simp [setTokens, getTokens, h1, jGet, hn, hb]
    | cons t2 rest2 =>
      have hne : (t2 :: rest2) ≠ [] := by simp
      have hv2 : ∀ x ∈ t2 :: rest2, ValidSeg x := fun x hx => hv x (by simp [hx])
      rcases hv t (by simp) with hid | hnum
      · have h1 : tokNum t = none := tokNum_none_of_ident t hid
        simp only [setTokens, h1, getTokens]
        rw [jGet_objSet]
        exact ih _ _ _ hv2 hne
      · obtain ⟨n, hn⟩ := Option.isSome_iff_exists.mp hnum
        have h1 : tokNum t = some n := tokNum_of_canonNat t n hn
        simp only [setTokens, h1, getTokens]
        rw [show (arr (buildSetArr root.jArrOrNil base.jArrOrNil n
              (setTokens (root.jArrOrNil.getD n undef) (t2 :: rest2) v
                (base.jArrOrNil.getD n undef)))).jGet t
            = (buildSetArr root.jArrOrNil base.jArrOrNil n
              (setTokens (root.jArrOrNil.getD n undef) (t2 :: rest2) v
                (base.jArrOrNil.getD n undef))).getD n undef from by simp [jGet, hn]]
        rw [buildSetArr_getD_self]
        exact ih _ _ _ hv2 hne

theorem splitDot_empty : splitDot "" = [""] := rfl

theorem validSeg_ne_empty (h : ValidSeg "") : False := by
  rcases h with h | h
  · exact absurd h (by decide)
  · exact absurd h (by decide)

/-- Claim C1 (path round-trip): for every structured document, every valid
dotted path — each segment an identifier or a non-negative integer — and
every value `v`, `get(set(root, p, v, base), p)` equals `v`. -/
theorem c1_get_set_roundtrip (root base v : JVal) (p : String) (t : String) (ts : List String)
    (hsplit : splitDot p = t :: ts) (hvalid : ∀ x ∈ t :: ts, ValidSeg x) :
    getPath (setPath root p v base) p = v := by
  have hne : p ≠ "" := by
    intro he
    subst he
    rw [splitDot_empty] at hsplit
    have ht : t = "" := (List.cons.injEq _ _ _ _ ▸ hsplit.symm).1
    exact validSeg_ne_empty (ht ▸ hvalid t (by simp))
  unfold getPath setPath
  rw [if_neg hne, if_neg hne, hsplit]
  exact roundtrip_tokens _ root base v hvalid (by simp)

/-- Witness for C1 at the concrete path `sections.hero.items.2.name`. -/
theorem c1_get_set_roundtrip_witness :
    getPath (setPath (obj []) "sections.hero.items.2.name" (str "Acme") undef)
      "sections.hero.items.2.name" = str "Acme" :=
  c1_get_set_roundtrip (obj []) undef (str "Acme") "sections.hero.items.2.name"
    "sections" ["hero", "items", "2", "name"] (by decide) (by decide)

/-- Claim C10 (degenerate-path totality): with the source's guard, an empty or
non-string path makes `get` return `undefined` and `set` return the input
document unchanged; both functions are total. -/
theorem c10_degenerate_paths (root v base p : JVal)
    (h : p = str "" ∨ p.isStr = false) :
    jsGet root p = undef ∧ jsSet root p v base = root := by
  rcases h with h | h
  · subst h
    exact ⟨by simp [jsGet, getPath], by simp [jsSet, setPath]⟩
  · cases p <;> simp_all [jsGet, jsSet, isStr]

/-- Witness for C10 at a numeric path argument. -/
theorem c10_degenerate_paths_witness :
    jsGet (obj [("a", num 1)]) (num 5) = undef ∧
      jsSet (obj [("a", num 1)]) (num 5) (str "x") undef = obj [("a", num 1)] :=
  c10_degenerate_paths (obj [("a", num 1)]) (str "x") undef (num 5) (Or.inr (by decide))

theorem buildSetArr_length (orig base : List JVal) (n : Nat) (x : JVal) :
    (buildSetArr orig base n x).length = max (max orig.length base.length) (n + 1) := by
  simp [buildSetArr]

theorem getD_out_of_range {α : Type} (l : List α) (n : Nat) (d : α) (h : l.length ≤ n) :
    l.getD n d = d := by
  simp [List.getD, List.getElem?_eq_none h]

theorem buildSetArr_getD_other (orig base : List JVal) (n : Nat) (x : JVal) (i : Nat)
    (hi : i ≠ n) :
    (buildSetArr orig base n x).getD i undef =
      (if orig.getD i undef ≠ undef then orig.getD i undef else base.getD i undef) := by
  by_cases hlt : i < max (max orig.length base.length) (n + 1)
  · rw [show (buildSetArr orig base n x).getD i undef
        = (if i = n then x
           else if orig.getD i undef ≠ undef then orig.getD i undef else base.getD i undef)
      from getD_range_map _ _ _ _ hlt]
    rw [if_neg hi]
  · have hlen : (buildSetArr orig base n x).length ≤ i := by
      rw [buildSetArr_length]; omega
    have h1 : orig.getD i undef = undef := getD_out_of_range _ _ _ (by omega)
    have h2 : base.getD i undef = undef := getD_out_of_range _ _ _ (by omega)
    rw [getD_out_of_range _ _ _ hlen, if_neg (not_ne_iff.mpr h1)]
    exact h2.symm

/-- Claim C5 (array gap-filling in `set`): a write at numeric index `n`
produces an array of length `max(existing.length, base.length, n+1)` whose
cell `n` holds the written value and whose other cells are taken from the
existing array when defined there, else from the base array, else stay
unset. -/
theorem c5_set_array_gap_filling (cur base v : JVal) (p t : String) (n : Nat)
    (hsplit : splitDot p = [t]) (htok : tokNum t = some n) :
    (setPath cur p v base).isArr = true ∧
    (setPath cur p v base).jArrOrNil.length
      = max (max cur.jArrOrNil.length base.jArrOrNil.length) (n + 1) ∧
    (setPath cur p v base).jArrOrNil.getD n undef = v ∧
    (∀ i, i ≠ n →
      (setPath cur p v base).jArrOrNil.getD i undef =
        (if cur.jArrOrNil.getD i undef ≠ undef then cur.jArrOrNil.getD i undef
         else base.jArrOrNil.getD i undef)) := by
  have hne : p ≠ "" := by
    intro he
    subst he
    rw [splitDot_empty] at hsplit
    injection hsplit with h1 _
    rw [← h1] at htok
    exact Option.noConfusion ((show tokNum "" = none from rfl) ▸ htok)
  unfold setPath
  rw [if_neg hne, hsplit]
  simp only [setTokens, htok, jArrOrNil]
  exact ⟨rfl, buildSetArr_length _ _ _ _, buildSetArr_getD_self _ _ _ _,
    fun i hi => buildSetArr_getD_other _ _ _ _ _ hi⟩

/-- Witness for C5: the spec's own example
`set([], "2", "x", base=["a","b","c"]) = ["a","b","x"]`. -/
theorem c5_set_array_gap_filling_witness :
    setPath (arr []) "2" (str "x") (arr [str "a", str "b", str "c"])
        = arr [str "a", str "b", str "x"] ∧
      (setPath (arr []) "2" (str "x") (arr [str "a", str "b", str "c"])).jArrOrNil.length = 3 ∧
      (setPath (arr []) "2" (str "x") (arr [str "a", str "b", str "c"])).jArrOrNil.getD 2 undef
        = str "x" :=
  ⟨by decide,
   (c5_set_array_gap_filling (arr []) (arr [str "a", str "b", str "c"]) (str "x") "2" "2" 2
      (by decide) (by decide)).2.1,
   (c5_set_array_gap_filling (arr []) (arr [str "a", str "b", str "c"]) (str "x") "2" "2" 2
      (by decide) (by decide)).2.2.1⟩

theorem lookup_mem_pair (fs : List (String × JVal)) (k : String) (v : JVal)
    (h : fs.lookup k = some v) : (k, v) ∈ fs := by
  induction fs with
  | nil => simp [List.lookup] at h
  | cons p rest ih =>
    obtain ⟨a, b⟩ := p
    by_cases hk : k = a
    · subst hk
      simp [List.lookup] at h
      simp [h]
    · simp [List.lookup, show (k == a) = false from beq_eq_false_iff_ne.mpr hk] at h
      exact List.mem_cons_of_mem _ (ih h)

theorem flattenLocalized_localeMap (fs : List (String × JVal)) (locale : String)
    (h : isLocaleMapB fs locale = true) :
    flattenLocalized (obj fs) locale
        = jNn ((obj fs).jGet locale) (jNn ((obj fs).jGet "en") (str "")) ∧
      (flattenLocalized (obj fs) locale).isStr = true := by
  have h1 : flattenLocalized (obj fs) locale
      = jNn ((obj fs).jGet locale) (jNn ((obj fs).jGet "en") (str "")) := by
    rw [show flattenLocalized (obj fs) locale
        = flattenF (Nat.succ (depth (obj fs))) (obj fs) locale from rfl]
    rw [flattenF]
    rw [if_pos h]
  refine ⟨h1, ?_⟩
  rw [h1]
  unfold isLocaleMapB at h
  simp only [Bool.and_eq_true, Bool.or_eq_true_iff] at h
  obtain ⟨⟨hne, hall⟩, hguard⟩ := h
  have hstr : ∀ k, (obj fs).jGet k ≠ undef → ((obj fs).jGet k).isStr = true := by
    intro k hk
    simp only [jGet] at hk ⊢
    cases hl : fs.lookup k with
    | none => rw [hl] at hk; simp at hk
    | some w =>
      have hmem := lookup_mem_pair fs k w hl
      have := List.all_eq_true.mp hall _ hmem
      simpa using this
  unfold jNn
  by_cases hloc : (obj fs).jGet locale = undef
  · rw [if_pos hloc]
    by_cases hen : (obj fs).jGet "en" = undef
    · rw [if_pos hen]; rfl
    · rw [if_neg hen]
      exact hstr "en" hen
  · rw [if_neg hloc]
    exact hstr locale hloc

theorem flattenLocalized_primitive (v : JVal) (locale : String)
    (h1 : v.isArr = false) (h2 : v.isPlainObject = false) :
    flattenLocalized v locale = v := by
  cases v <;> simp_all [isArr, isPlainObject] <;> rfl

/-- Counterexample to claim C4 as stated: on `{ fr: "", en: "Hello" }` with
active locale `fr`, the claim demands `raw["fr"]` (the empty string) back,
but the source's `rawValue[locale] || rawValue['en'] || ''` skips the falsy
empty string and resolves to `"Hello"`. -/
theorem c4_locale_counterexample :
    (obj [("fr", str ""), ("en", str "Hello")]).jGet "fr" = str "" ∧
      (getLocalizedValue (obj [("fr", str ""), ("en", str "Hello")]) "fr").value
        = str "Hello" ∧
      (getLocalizedValue (obj [("fr", str ""), ("en", str "Hello")]) "fr").value
        ≠ (obj [("fr", str ""), ("en", str "Hello")]).jGet "fr" := by
  decide

/-- Claim C4 as amended: for a map-valued raw value, the resolved value is
the first *truthy* of `raw[locale]`, `raw["en"]`, `""` (so an empty-string
translation falls back; the default locale is fixed to `"en"`);
`isTranslated` is key membership of the locale, `isFallback` is
`!isTranslated && "en" in raw`, and `availableLocales` is `keys(raw)`.  In
particular `{ en: "Hello" }` at locale `fr` resolves to `"Hello"` with
`isTranslated = false` and `isFallback = true`. -/
theorem c4_locale_resolution_amended (fs : List (String × JVal)) (locale : String) :
    (getLocalizedValue (obj fs) locale).value
        = jOr ((obj fs).jGet locale) (jOr ((obj fs).jGet "en") (str "")) ∧
      (getLocalizedValue (obj fs) locale).isTranslated = (obj fs).jHasProp locale ∧
      (getLocalizedValue (obj fs) locale).isFallback
        = (!(obj fs).jHasProp locale && (obj fs).jHasProp "en") ∧
      (getLocalizedValue (obj fs) locale).availableLocales = fs.map Prod.fst ∧
      getLocalizedValue (obj [("en", str "Hello")]) "fr"
        = { value := str "Hello", isTranslated := false, isFallback := true,
            availableLocales := ["en"] } :=
  ⟨rfl, rfl, rfl, rfl, by decide⟩

/-! ### Concrete example documents and sessions

A small section-type registry in the shape of `siteSchema.sectionTypes`
(`hero` and `about` singletons, `gallery` repeatable with a capped `items`
array), used by the concrete instances below. -/

def heroMeta : JVal := obj
  [("displayName", str "Hero Section"), ("description", str "Main banner"),
   ("singleton", bool true),
   ("schema", obj [("shortHeadline", obj [("type", str "string"), ("editable", bool true)])]),
   ("defaultData", obj [("shortHeadline", str "Your Business Headline")])]

def aboutMeta : JVal := obj
  [("displayName", str "About Section"), ("description", str "About your business"),
   ("singleton", bool true),
   ("schema", obj [("title", obj [("type", str "string"), ("editable", bool true)])]),
   ("defaultData", obj [("title", str "About Us")])]

def galleryMeta : JVal := obj
  [("displayName", str "Gallery"), ("description", str "Images"),
   ("singleton", bool false),
   ("schema", obj [("items", obj
     [("type", str "array"), ("editable", bool true), ("maxItems", num 2),
      ("itemSchema", obj [("name", obj [("type", str "string"), ("editable", bool true)])])])]),
   ("defaultData", obj [("items", arr [])])]

def exampleSchema : JVal := obj
  [("sectionTypes", obj [("hero", heroMeta), ("about", aboutMeta), ("gallery", galleryMeta)])]

def heroSec : JVal := obj
  [("id", str "hero"), ("type", str "hero"), ("enabled", bool true),
   ("region", str "main"), ("order", num 10),
   ("data", obj [("shortHeadline", str "Welcome")])]

/-- A session on the `about-us` page, whose base section list lives under
`pages.about-us.sections` (no legacy root-level `sections`). -/
def sessAboutUs : Session :=
  { initialData := obj [("pages", obj [("about-us", obj [("sections", arr [heroSec])])])]
    schema := exampleSchema
    pageType := some "about-us"
    contextSlug := none
    currentLocale := "en" }

/-- A legacy home session storing its sections at the document root. -/
def sessHome : Session :=
  { initialData := obj [("sections", arr [heroSec])]
    schema := exampleSchema
    pageType := none
    contextSlug := none
    currentLocale := "en" }

/-- A context-scoped sub-page session (`service-detail` with slug `physio`). -/
def sessCtx : Session :=
  { initialData := obj [("pages", obj [("service-detail", obj [("sections", arr [])])])]
    schema := exampleSchema
    pageType := some "service-detail"
    contextSlug := some "physio"
    currentLocale := "en" }

/-- A localized hero section whose `title` holds `{ en: "A", fr: "B" }`. -/
def secLoc : JVal := obj
  [("id", str "hero"), ("type", str "hero"), ("enabled", bool true),
   ("region", str "main"), ("order", num 10),
   ("data", obj [("title", obj [("en", str "A"), ("fr", str "B")])])]

def exampleBaseDoc : JVal := obj [("pages", obj [("home", obj [("sections", arr [])])])]

def exampleWorkingDoc : JVal := obj [("pages", obj [("home", obj [("sections", arr [secLoc])])])]

/-- An object that does not pass the source's locale-map test keeps its
object shape (the walk only recurses into its values) — in particular it is
not collapsed to a string. -/
theorem flattenLocalized_nonLocaleMap (gs : List (String × JVal)) (locale : String)
    (h : isLocaleMapB gs locale = false) :
    (flattenLocalized (obj gs) locale).isPlainObject = true ∧
    (flattenLocalized (obj gs) locale).jKeys = gs.map Prod.fst := by
  have h1 : flattenLocalized (obj gs) locale
      = obj (gs.map (fun p => (p.1, flattenF (depth (obj gs)) p.2 locale))) := by
    rw [show flattenLocalized (obj gs) locale
        = flattenF (Nat.succ (depth (obj gs))) (obj gs) locale from rfl]
    rw [flattenF]
    rw [if_neg (by simp [h])]
  rw [h1]
  refine ⟨rfl, ?_⟩
  show (gs.map (fun p => (p.1, flattenF (depth (obj gs)) p.2 locale))).map Prod.fst
      = gs.map Prod.fst
  rw [List.map_map]
  exact List.map_congr_left (fun p _ => rfl)

/-- A hero section whose `title` is the locale map `{ de: "X" }` — a locale
map that carries neither the active locale nor the default locale. -/
def secDe : JVal := obj
  [("id", str "hero"), ("type", str "hero"), ("enabled", bool true),
   ("region", str "main"), ("order", num 10),
   ("data", obj [("title", obj [("de", str "X")])])]

def exampleWorkingDocDe : JVal := obj
  [("pages", obj [("home", obj [("sections", arr [secDe])])])]

/-- Counterexample to claim C9 as stated: `{ de: "X" }` is a locale map (a
nonempty map of locale codes to strings), and at active locale `fr` the
claim's formula `map[locale] ?? map["en"] ?? ""` gives `""` — but the walk's
guard (source line 1252) requires an `en` or active-locale key, so the code
returns the map unchanged, and the published payload carries the raw map
instead of `""` (the formula's `""` arm is unreachable in the code).
Conversely `{ en: "A", name: "B" }`, which maps field names rather than only
locale codes, *is* collapsed to `"A"` although the claim says non-locale-map
values are left untouched. -/
theorem c9_publish_flattening_counterexample :
    ([("de", str "X")].all (fun p => p.2.isStr)) = true ∧
      jNn ((obj [("de", str "X")]).jGet "fr") (jNn ((obj [("de", str "X")]).jGet "en") (str ""))
        = str "" ∧
      flattenLocalized (obj [("de", str "X")]) "fr" = obj [("de", str "X")] ∧
      flattenLocalized (obj [("de", str "X")]) "fr"
        ≠ jNn ((obj [("de", str "X")]).jGet "fr")
            (jNn ((obj [("de", str "X")]).jGet "en") (str "")) ∧
      getPath (buildPublishPayload exampleBaseDoc exampleWorkingDocDe "home" "fr" [secDe])
        "pages.home.sections.0.data.title" = obj [("de", str "X")] ∧
      flattenLocalized (obj [("en", str "A"), ("name", str "B")]) "fr" = str "A" := by
  decide

/-- Claim C9 as amended: the payload builder's recursive walk collapses a
value to the single string `map[locale] ?? map["en"] ?? ""` exactly when it
is a nonempty object all of whose values are strings *and* it carries the
active-locale or `"en"` key (the default locale is fixed to `"en"`, and under
that guard the `""` arm is unreachable, so the result is always one of the
map's strings); an object without either key — including a locale map held
only in other locales — keeps its object shape and keys, and every
non-container value is returned untouched.  In particular the published
payload built over a section whose `title` is `{ en: "A", fr: "B" }` at
active locale `fr` carries the plain string `"B"`. -/
theorem c9_publish_flattening (fs gs : List (String × JVal)) (v : JVal) (locale : String)
    (hmap : isLocaleMapB fs locale = true)
    (hnot : isLocaleMapB gs locale = false)
    (hprim1 : v.isArr = false) (hprim2 : v.isPlainObject = false) :
    (flattenLocalized (obj fs) locale
        = jNn ((obj fs).jGet locale) (jNn ((obj fs).jGet "en") (str "")) ∧
      (flattenLocalized (obj fs) locale).isStr = true) ∧
    ((flattenLocalized (obj gs) locale).isPlainObject = true ∧
      (flattenLocalized (obj gs) locale).jKeys = gs.map Prod.fst) ∧
    flattenLocalized v locale = v ∧
    getPath (buildPublishPayload exampleBaseDoc exampleWorkingDoc "home" "fr" [secLoc])
      "pages.home.sections.0.data.title" = str "B" :=
  ⟨flattenLocalized_localeMap fs locale hmap,
   flattenLocalized_nonLocaleMap gs locale hnot,
   flattenLocalized_primitive v locale hprim1 hprim2,
   by decide⟩

/-- Witness for the amended C9 at `{ en: "A", fr: "B" }` (collapsed),
`{ de: "X" }` (left a map) and a plain string (untouched), all at locale
`fr`. -/
theorem c9_publish_flattening_witness :
    flattenLocalized (obj [("en", str "A"), ("fr", str "B")]) "fr" = str "B" ∧
      (flattenLocalized (obj [("de", str "X")]) "fr").isPlainObject = true ∧
      flattenLocalized (str "keep") "fr" = str "keep" :=
  ⟨by
    have h := (c9_publish_flattening [("en", str "A"), ("fr", str "B")] [("de", str "X")]
        (str "keep") "fr" (by decide) (by decide) (by decide) (by decide)).1.1
    rw [h]
    decide,
   (c9_publish_flattening [("en", str "A"), ("fr", str "B")] [("de", str "X")]
      (str "keep") "fr" (by decide) (by decide) (by decide) (by decide)).2.1.1,
   (c9_publish_flattening [("en", str "A"), ("fr", str "B")] [("de", str "X")]
      (str "keep") "fr" (by decide) (by decide) (by decide) (by decide)).2.2.1⟩

/-- A home-page overlay state with one live section and one field edit under
`sections.hero`. -/
def stOverlayHero : PState :=
  { editedData := obj [("sections", obj [("hero", obj [("shortHeadline", str "Edited!")])])]
    sections := [heroSec] }

/-- Claim C2 names the spec's intent, but the code has a slip: the session is
seeded from `pages.about-us.sections` (the base list `[heroSec]`), yet
`discardChanges` resets the registry to `initialData.sections || []`, which
for this page type is empty — so after `addSection` + `discard`,
`getSections()` returns `[]` instead of the original base section list.  The
overlay itself is correctly emptied. -/
theorem c2_discard_reset_bug :
    getInitialSections sessAboutUs = [heroSec] ∧
      ((addSection sessAboutUs (initialState sessAboutUs) "about" "main" none 0).sections).length
        = 2 ∧
      (discardChanges sessAboutUs
        (addSection sessAboutUs (initialState sessAboutUs) "about" "main" none 0)).editedData
        = obj [] ∧
      getSections sessAboutUs
        (discardChanges sessAboutUs
          (addSection sessAboutUs (initialState sessAboutUs) "about" "main" none 0)) none
        = [] := by
  decide

/-- Counterexample to claim C3 as stated: on the `about-us` page the
structural write of `removeSection` goes to `pages.about-us.sections`, so the
field edit stored under `sections.hero` survives the removal — the overlay is
not purged. -/
theorem c3_remove_purge_counterexample :
    str "hero" ∈ stOverlayHero.sections.map (fun s => s.jGet "id") ∧
      (removeSection sessAboutUs stOverlayHero "hero").sections = [] ∧
      getTokens (removeSection sessAboutUs stOverlayHero "hero").editedData
        ["sections", "hero", "shortHeadline"] = str "Edited!" ∧
      getTokens (removeSection sessAboutUs stOverlayHero "hero").editedData
        ["sections", "hero", "shortHeadline"] ≠ undef := by
  decide

/-- Claim C3 as amended: `removeSection(id)` always removes every section
with that id from the live list; but the overlay purge only happens on pages
whose sections path is the legacy root `sections` (home / no page type),
where the structural write replaces the overlay's `sections` subtree by the
new section array so that nothing under `sections.<id>` remains readable.
On other page types the write goes to `pages.<pageType>.sections` and edits
under `sections.<id>` survive (see the counterexample). -/
theorem c3_remove_purge_amended (sess : Session) (st : PState) (id : String)
    (hpath : sectionsPathOf sess = "sections")
    (hid1 : canonNat id = none) (hid2 : id ≠ "length") :
    (str id ∉ ((removeSection sess st id).sections).map (fun s => s.jGet "id")) ∧
    (∀ toks,
      getTokens (removeSection sess st id).editedData ("sections" :: id :: toks) = undef) := by
  constructor
  · intro hmem
    have hf : (removeSection sess st id).sections
        = st.sections.filter (fun s => !(s.jGet "id" == str id)) := rfl
    rw [hf] at hmem
    obtain ⟨s, hs, hid⟩ := List.mem_map.mp hmem
    have := (List.mem_filter.mp hs).2
    simp [hid] at this
  · intro toks
    have h1 : (removeSection sess st id).editedData
        = obj (objSet st.editedData.spreadFields "sections"
            (arr (st.sections.filter (fun s => !(s.jGet "id" == str id))))) := by
      simp only [removeSection, hpath]
      rfl
    rw [h1, getTokens, jGet_objSet, getTokens]
    rw [show (arr (st.sections.filter (fun s => !(s.jGet "id" == str id)))).jGet id = undef from by
      simp [jGet, hid1, hid2]]
    exact getTokens_undef toks

/-- Witness for the amended C3 on a home-page session. -/
theorem c3_remove_purge_amended_witness :
    (str "hero" ∉ ((removeSection sessHome stOverlayHero "hero").sections).map
        (fun s => s.jGet "id")) ∧
      getTokens (removeSection sessHome stOverlayHero "hero").editedData
        ["sections", "hero", "shortHeadline"] = undef :=
  ⟨(c3_remove_purge_amended sessHome stOverlayHero "hero" (by decide) (by decide) (by decide)).1,
   (c3_remove_purge_amended sessHome stOverlayHero "hero" (by decide) (by decide)
      (by decide)).2 ["shortHeadline"]⟩

/-- Claim C6 (maxItems enforcement): whenever the resolved array schema
carries a numeric `maxItems = n`, a merged length of at least `n` makes
`addArrayItem` a strict no-op (the whole session state is unchanged) and
`canAddArrayItem` false, while a length below `n` makes `canAddArrayItem`
true; without a numeric `maxItems`, `canAddArrayItem` is always true. -/
theorem c6_max_items (sess : Session) (st : PState) (p : String) :
    (∀ n : Int, maxItemsAt sess st p = some n →
      ((Int.ofNat (liveArrayAt sess st p).length ≥ n →
         addArrayItem sess st p = st ∧ canAddArrayItem sess st p = false) ∧
       (Int.ofNat (liveArrayAt sess st p).length < n →
         canAddArrayItem sess st p = true))) ∧
    (maxItemsAt sess st p = none → canAddArrayItem sess st p = true) := by
  refine ⟨fun n hmax => ⟨fun hlen => ⟨?_, ?_⟩, fun hlen => ?_⟩, fun hnone => ?_⟩
  · simp only [addArrayItem, hmax]
    rw [if_pos hlen]
  · simp only [canAddArrayItem, hmax]
    simp only [Int.ofNat_eq_coe] at hlen ⊢
    simp
    omega
  · simp only [canAddArrayItem, hmax]
    simp only [Int.ofNat_eq_coe] at hlen ⊢
    simp
    omega
  · simp only [canAddArrayItem, hnone]

/-- A gallery section holding two items, at the `maxItems = 2` cap of its
schema. -/
def stGalleryFull : PState :=
  { editedData := obj []
    sections := [obj
      [("id", str "g1"), ("type", str "gallery"), ("enabled", bool true),
       ("region", str "main"), ("order", num 20),
       ("data", obj [("items", arr [obj [("name", str "one")], obj [("name", str "two")]])])]] }

/-- Witness for C6: with `maxItems = 2` and two existing items, `addArrayItem`
leaves the state untouched and `canAddArrayItem` is false. -/
theorem c6_max_items_witness :
    maxItemsAt sessHome stGalleryFull "sections.g1.items" = some 2 ∧
      (liveArrayAt sessHome stGalleryFull "sections.g1.items").length = 2 ∧
      addArrayItem sessHome stGalleryFull "sections.g1.items" = stGalleryFull ∧
      canAddArrayItem sessHome stGalleryFull "sections.g1.items" = false :=
  ⟨by decide, by decide,
   (((c6_max_items sessHome stGalleryFull "sections.g1.items").1 2 (by decide)).1
      (by decide)).1,
   (((c6_max_items sessHome stGalleryFull "sections.g1.items").1 2 (by decide)).1
      (by decide)).2⟩

/-! ### Render-order invariants for claim C8 -/

def isNumJ : JVal → Bool
  | num _ => true
  | _ => false

/-- The `order` values of a section list. -/
def ordsOf (l : List JVal) : List JVal := l.map (fun s => s.jGet "order")

def pairB (r : JVal → JVal → Bool) : List JVal → Bool
  | [] => true
  | a :: rest => rest.all (r a) && pairB r rest

def jltB : JVal → JVal → Bool
  | num a, num b => a < b
  | _, _ => false

def jneB (a b : JVal) : Bool := !(a == b)

/-- The claim's starting point: order values are numeric and strictly
ascending along the list. -/
def StrictAscNum (l : List JVal) : Prop :=
  (ordsOf l).all isNumJ = true ∧ pairB jltB (ordsOf l) = true

/-- "Orders induce a strict (tie-free) ascending numeric render order": all
order values are numbers and pairwise distinct, so the renderer's ascending
sort is strict. -/
def RenderStrict (l : List JVal) : Prop :=
  (ordsOf l).all isNumJ = true ∧ pairB jneB (ordsOf l) = true

instance (l : List JVal) : Decidable (StrictAscNum l) := by
  unfold StrictAscNum
  infer_instance

instance (l : List JVal) : Decidable (RenderStrict l) := by
  unfold RenderStrict
  infer_instance

theorem pairB_iff (r : JVal → JVal → Bool) (l : List JVal) :
    pairB r l = true ↔ l.Pairwise (fun a b => r a b = true) := by
  induction l with
  | nil => simp [pairB]
  | cons a rest ih =>
    simp [pairB, List.pairwise_cons, ih, List.all_eq_true]

theorem jneB_of_jltB (a b : JVal) (h : jltB a b = true) : jneB a b = true := by
  cases a <;> cases b <;> simp_all [jltB, jneB]
  omega

theorem renderStrict_of_strictAscNum (l : List JVal) (h : StrictAscNum l) : RenderStrict l := by
  refine ⟨h.1, ?_⟩
  rw [pairB_iff]
  exact ((pairB_iff _ _).mp h.2).imp (fun hab => jneB_of_jltB _ _ hab)

theorem all_sublist {l' l : List JVal} (f : JVal → Bool) (hs : List.Sublist l' l)
    (h : l.all f = true) : l'.all f = true := by
  rw [List.all_eq_true] at h ⊢
  exact fun x hx => h x (hs.subset hx)

theorem strictAscNum_filter (l : List JVal) (p : JVal → Bool) (h : StrictAscNum l) :
    StrictAscNum (l.filter p) := by
  have hs : List.Sublist ((l.filter p).map (fun s => s.jGet "order"))
      (l.map (fun s => s.jGet "order")) :=
    (List.filter_sublist l).map _
  exact ⟨all_sublist _ hs h.1, (pairB_iff _ _).mpr (((pairB_iff _ _).mp h.2).sublist hs)⟩

theorem jGet_spreadSet (s : JVal) (k : String) (v : JVal) :
    (jsSpreadSet s k v).jGet k = v := jGet_objSet _ _ _

theorem ordsOf_renumberFrom (l : List JVal) :
    ∀ i, ordsOf (renumberFrom i l)
      = (List.range l.length).map (fun k => num ((Int.ofNat (i + k) + 1) * 10)) := by
  induction l with
  | nil => intro i; rfl
  | cons s rest ih =>
    intro i
    show (jsSpreadSet s "order" (num ((Int.ofNat i + 1) * 10))).jGet "order"
        :: ordsOf (renumberFrom (i + 1) rest) = _
    rw [jGet_spreadSet, ih (i + 1), List.length_cons, List.range_succ_eq_map, List.map_cons,
      List.map_map]
    simp only [Nat.add_zero]
    congr 1
    refine List.map_congr_left (fun k _ => ?_)
    show num ((Int.ofNat (i + 1 + k) + 1) * 10) = num ((Int.ofNat (i + (k + 1)) + 1) * 10)
    congr 1
    simp only [Int.ofNat_eq_coe]
    omega

theorem renderStrict_renumber (l : List JVal) : RenderStrict (renumberFrom 0 l) := by
  constructor
  · rw [show (ordsOf (renumberFrom 0 l)).all isNumJ
        = (((List.range l.length).map (fun k => num ((Int.ofNat (0 + k) + 1) * 10))).all isNumJ)
      from by rw [ordsOf_renumberFrom]]
    rw [List.all_eq_true]
    intro x hx
    obtain ⟨k, _, hk⟩ := List.mem_map.mp hx
    rw [← hk]
    rfl
  · rw [pairB_iff, ordsOf_renumberFrom]
    refine (List.pairwise_lt_range l.length).map _ (fun a b hab => ?_)
    simp only [jneB, Bool.not_eq_true']
    rw [beq_eq_false_iff_ne]
    intro he
    injection he with hv
    simp only [Int.ofNat_eq_coe] at hv
    omega

theorem jGet_newSection_order (sess : Session) (st : PState) (ty region : String)
    (pos : Option Nat) (now : Int) :
    (newSectionFor sess st ty region pos now).jGet "order"
      = num (match pos with
             | some p => Int.ofNat p * 10
             | none => (Int.ofNat st.sections.length + 1) * 10) := by
  unfold newSectionFor
  cases hctx : ctxOf sess with
  | none => rfl
  | some pr => rfl

/-- Claim C8 as amended: starting from a section list whose order values are
strictly ascending along the list, `removeSection`, `moveSection` and
`addSection` *with* a position preserve a strict tie-free ascending numeric
render order (the latter two by renumbering every order to `(index+1)*10`);
`addSection` *without* a position appends order `(count+1)*10` and preserves
it only when that value does not collide with an existing order — which the
canonical `(index+1)*10` numbering guarantees, but a list that merely has
ascending orders does not (see the counterexample). -/
theorem c8_render_order_amended (sess : Session) (st : PState) (h : StrictAscNum st.sections) :
    (∀ id, RenderStrict ((removeSection sess st id).sections)) ∧
    (∀ id pos, RenderStrict ((moveSection sess st id pos).sections)) ∧
    (∀ ty r pos now, RenderStrict ((addSection sess st ty r (some pos) now).sections)) ∧
    (∀ ty r now,
      num ((Int.ofNat st.sections.length + 1) * 10) ∉ ordsOf st.sections →
      RenderStrict ((addSection sess st ty r none now).sections)) := by
  refine ⟨fun id => ?_, fun id pos => ?_, fun ty r pos now => ?_, fun ty r now hnotin => ?_⟩
  · exact renderStrict_of_strictAscNum _ (strictAscNum_filter _ _ h)
  · unfold moveSection
    cases hidx : st.sections.findIdx? (fun s => s.jGet "id" == str id) with
    | none => exact renderStrict_of_strictAscNum _ h
    | some i =>
      dsimp only
      by_cases hp : pos = i
      · rw [if_pos hp]
        exact renderStrict_of_strictAscNum _ h
      · rw [if_neg hp]
        exact renderStrict_renumber _
  · unfold addSection
    cases hm : ((sess.schema.jGet "sectionTypes").jGet ty).jTruthy with
    | false => simpa [hm] using renderStrict_of_strictAscNum _ h
    | true =>
      simp only [hm, Bool.not_true, Bool.false_eq_true, if_false]
      exact renderStrict_renumber _
  · unfold addSection
    cases hm : ((sess.schema.jGet "sectionTypes").jGet ty).jTruthy with
    | false => simpa [hm] using renderStrict_of_strictAscNum _ h
    | true =>
      simp only [hm, Bool.not_true, Bool.false_eq_true, if_false]
      have hord := jGet_newSection_order sess st ty r none now
      constructor
      · show ((st.sections ++ [newSectionFor sess st ty r none now]).map
            (fun s => s.jGet "order")).all isNumJ = true
        rw [List.map_append, List.all_append, Bool.and_eq_true]
        exact ⟨h.1, by simp [hord, isNumJ]⟩
      · show pairB jneB ((st.sections ++ [newSectionFor sess st ty r none now]).map
            (fun s => s.jGet "order")) = true
        rw [List.map_append, pairB_iff, List.pairwise_append]
        refine ⟨(pairB_iff _ _).mp (renderStrict_of_strictAscNum _ h).2, ?_, ?_⟩
        · simp
        · intro a ha b hb
          simp only [List.map_cons, List.map_nil, List.mem_singleton] at hb
          subst hb
          rw [hord]
          simp only [jneB, Bool.not_eq_true']
          rw [beq_eq_false_iff_ne]
          intro he
          rw [he] at ha
          exact hnotin ha

/-- Two sections whose orders `10, 30` are strictly ascending but not the
canonical `(index+1)*10` numbering (e.g. after a middle section was
removed). -/
def stTwoGaps : PState :=
  { editedData := obj []
    sections :=
      [obj [("id", str "a1"), ("type", str "about"), ("enabled", bool true),
            ("region", str "main"), ("order", num 10), ("data", obj [])],
       obj [("id", str "a2"), ("type", str "gallery"), ("enabled", bool true),
            ("region", str "main"), ("order", num 30), ("data", obj [])]] }

/-- Counterexample to claim C8 as stated: starting from strictly ascending
orders `10, 30`, `addSection` without a position appends order
`(count+1)*10 = 30`, duplicating an existing order, so the resulting orders
`10, 30, 30` no longer induce a tie-free ascending render order. -/
theorem c8_append_order_counterexample :
    StrictAscNum stTwoGaps.sections ∧
      ((addSection sessHome stTwoGaps "hero" "main" none 0).sections).map
          (fun s => s.jGet "order")
        = [num 10, num 30, num 30] ∧
      ¬ RenderStrict ((addSection sessHome stTwoGaps "hero" "main" none 0).sections) := by
  decide

/-- Witness for the amended C8 at a concrete strictly-ascending state. -/
theorem c8_render_order_amended_witness :
    StrictAscNum stTwoGaps.sections ∧
      RenderStrict ((removeSection sessHome stTwoGaps "a1").sections) ∧
      RenderStrict ((addSection sessHome stTwoGaps "hero" "main" (some 1) 0).sections) :=
  ⟨by decide,
   (c8_render_order_amended sessHome stTwoGaps (by decide)).1 "a1",
   (c8_render_order_amended sessHome stTwoGaps (by decide)).2.2.1 "hero" "main" 1 0⟩

theorem jGet_newSection_id (sess : Session) (st : PState) (ty region : String)
    (pos : Option Nat) (now : Int) :
    (newSectionFor sess st ty region pos now).jGet "id"
      = str (match ctxOf sess with
             | some pr => pr.2 ++ "-" ++
                 (if (((sess.schema.jGet "sectionTypes").jGet ty).jGet "singleton").jTruthy
                  then ty else ty ++ "-" ++ toString now)
             | none =>
                 (if (((sess.schema.jGet "sectionTypes").jGet ty).jGet "singleton").jTruthy
                  then ty else ty ++ "-" ++ toString now)) := by
  unfold newSectionFor
  cases hctx : ctxOf sess with
  | none => rfl
  | some pr => rfl

theorem addSection_append (sess : Session) (st : PState) (ty r : String) (now : Int)
    (hmeta : ((sess.schema.jGet "sectionTypes").jGet ty).jTruthy = true) :
    (addSection sess st ty r none now).sections
      = st.sections ++ [newSectionFor sess st ty r none now] := by
  unfold addSection
  simp only [hmeta, Bool.not_true, Bool.false_eq_true, if_false]

theorem lookup_getAvailFields (sess : Session) (st : PState) (ty : String)
    (hallow : allowExcludes sess ty = false) (fs : List (String × JVal)) :
    (fs.filterMap (fun p => if allowExcludes sess p.1 then none
        else some (p.1, mkAvailEntry sess st p.1 p.2))).lookup ty
      = (fs.lookup ty).map (fun m => mkAvailEntry sess st ty m) := by
  induction fs with
  | nil => rfl
  | cons p rest ih =>
    obtain ⟨k, m⟩ := p
    by_cases hk : ty = k
    · subst hk
      rw [List.filterMap_cons]
      simp only [hallow, if_false]
      simp [List.lookup]
    · rw [List.filterMap_cons]
      by_cases he : allowExcludes sess k = true
      · simp only [he, if_true]
        rw [ih]
        simp [List.lookup, show (ty == k) = false from beq_eq_false_iff_ne.mpr hk]
      · simp only [Bool.not_eq_true] at he
        simp only [he, if_false]
        simp [List.lookup, show (ty == k) = false from beq_eq_false_iff_ne.mpr hk, ih]

/-- Claim C7 as amended: `addSection` of a singleton type produces id equal
to the type only when no context slug is configured; on a context-scoped
sub-page the id is `<contextSlug>-<type>`.  And whenever the page allowlist
admits the type (`getAvailableSections` is silent on disallowed types) and an
instance of the singleton type exists in the current context, the
availability listing reports `canAdd = false` for it. -/
theorem c7_singleton_amended (sess : Session) (st : PState) (ty r : String) (now : Int)
    (rfs : List (String × JVal))
    (hreg : sess.schema.jGet "sectionTypes" = obj rfs)
    (hmeta : ((sess.schema.jGet "sectionTypes").jGet ty).jTruthy = true)
    (hsingle : (((sess.schema.jGet "sectionTypes").jGet ty).jGet "singleton").jTruthy = true) :
    (ctxOf sess = none →
      ((addSection sess st ty r none now).sections).map (fun s => s.jGet "id")
        = (st.sections.map (fun s => s.jGet "id")) ++ [str ty]) ∧
    (∀ cp cs, ctxOf sess = some (cp, cs) →
      ((addSection sess st ty r none now).sections).map (fun s => s.jGet "id")
        = (st.sections.map (fun s => s.jGet "id")) ++ [str (cs ++ "-" ++ ty)]) ∧
    (allowExcludes sess ty = false →
      str ty ∈ (relevantSectionsOf sess st).map (fun s => s.jGet "type") →
      ((getAvailableSections sess st).lookup ty).map (fun e => e.canAdd) = some false) := by
  refine ⟨fun hctx => ?_, fun cp cs hctx => ?_, fun hallow hadded => ?_⟩
  · rw [addSection_append sess st ty r now hmeta, List.map_append]
    congr 1
    rw [List.map_cons, List.map_nil, jGet_newSection_id, hctx]
    rw [if_pos hsingle]
  · rw [addSection_append sess st ty r now hmeta, List.map_append]
    congr 1
    rw [List.map_cons, List.map_nil, jGet_newSection_id, hctx]
    rw [if_pos hsingle]
  · have hga : getAvailableSections sess st
        = rfs.filterMap (fun p => if allowExcludes sess p.1 then none
            else some (p.1, mkAvailEntry sess st p.1 p.2)) := by
      unfold getAvailableSections
      rw [hreg]
    rw [hga, lookup_getAvailFields sess st ty hallow rfs]
    rw [hreg] at hmeta hsingle
    cases hl : rfs.lookup ty with
    | none =>
      rw [show (obj rfs).jGet ty = undef from by simp [jGet, hl]] at hmeta
      exact absurd hmeta (by decide)
    | some m =>
      have hm : (obj rfs).jGet ty = m := by simp [jGet, hl]
      rw [hm] at hsingle
      dsimp only [Option.map]
      unfold mkAvailEntry
      rw [hsingle]
      simp only [if_true]
      have hc : (((relevantSectionsOf sess st).map (fun s => s.jGet "type")).contains (str ty))
          = true := List.elem_iff.mpr hadded
      rw [hc]
      rfl

/-- Counterexample to claim C7 as stated: on the context-scoped
`service-detail` page with slug `physio`, `addSection("hero", …)` produces a
section whose id is `"physio-hero"`, not `"hero"`. -/
theorem c7_singleton_id_counterexample :
    ((sessCtx.schema.jGet "sectionTypes").jGet "hero").jTruthy = true ∧
      (((sessCtx.schema.jGet "sectionTypes").jGet "hero").jGet "singleton").jTruthy = true ∧
      ((addSection sessCtx (initialState sessCtx) "hero" "main" none 0).sections).map
          (fun s => s.jGet "id") = [str "physio-hero"] ∧
      str "hero" ∉ ((addSection sessCtx (initialState sessCtx) "hero" "main" none 0).sections).map
          (fun s => s.jGet "id") := by
  decide

/-- Witness for the amended C7 on a context-free home session that already
holds a hero section. -/
theorem c7_singleton_amended_witness :
    ((addSection sessHome (initialState sessHome) "hero" "main" none 0).sections).map
        (fun s => s.jGet "id") = [str "hero", str "hero"] ∧
      ((getAvailableSections sessHome (initialState sessHome)).lookup "hero").map
        (fun e => e.canAdd) = some false :=
  ⟨by
    have h := (c7_singleton_amended sessHome (initialState sessHome) "hero" "main" 0
        [("hero", heroMeta), ("about", aboutMeta), ("gallery", galleryMeta)]
        (by decide) (by decide) (by decide)).1 (by decide)
    rw [h]
    decide,
   (c7_singleton_amended sessHome (initialState sessHome) "hero" "main" 0
      [("hero", heroMeta), ("about", aboutMeta), ("gallery", galleryMeta)]
      (by decide) (by decide) (by decide)).2.2 (by decide) (by decide)⟩
